import Mathlib

/-!
Verification development for a Discord leveling bot (discord.js v14).

The definitions below are a shallow embedding of the bot's XP/level engine:
the level curve (`LevelingManager.xpForLevel` / `getLevelFromXP`), the ledger
operations (`addXP`, `removeXP`), the message-XP gatekeeper
(`XPManager.handleMessageXP`), the role-reward resolver of the level-up path,
the leaderboard query (`getLeaderboard`), configuration normalization and
update (`GuildConfigManager`), and the voice presence tracker (`VoiceManager`).
JavaScript numbers are modelled as `Int` where the source only ever holds
integers (XP totals, levels) and as `ℚ` where fractional values flow through
(rates, multipliers, timestamps); Mongoose `Map`s become association lists
iterated in entry order; the database record and its cache copy are folded
into one record, since every write path refreshes or invalidates the cache.
-/

/-- LevelingManager.xpForLevel: total accumulated XP required to reach the
start of `level`; the source returns 0 for `level <= 0` and otherwise
`5 * level ** 2 + 50 * level + 100`. -/
def xpForLevel (level : Int) : Int :=
  if level ≤ 0 then 0 else 5 * level ^ 2 + 50 * level + 100

/-- The `while (xp >= xpNeededForNextLevel)` loop of
`LevelingManager.getLevelFromXP`, with explicit fuel: the loop increments
`level` as long as the requirement of the next level is covered by `xp`. -/
def levelLoop (xp : Int) : Nat → Nat → Nat
  | level, 0 => level
  | level, fuel + 1 =>
    if xpForLevel ((level : Int) + 1) ≤ xp then levelLoop xp (level + 1) fuel else level

/-- LevelingManager.getLevelFromXP: the user's level derived from total XP;
the source returns 0 for `xp <= 0`. Fuel `xp.toNat` over-approximates the
number of loop iterations (each iteration needs at least 155 more XP). -/
def getLevelFromXP (xp : Int) : Int :=
  if xp ≤ 0 then 0 else (levelLoop xp 0 xp.toNat : Int)

theorem xpForLevel_lt_xpForLevel {a b : Int} (ha : 0 ≤ a) (hab : a < b) :
    xpForLevel a < xpForLevel b := by
  unfold xpForLevel
  have hb : ¬ b ≤ 0 := by omega
  rw [if_neg hb]
  by_cases h : a ≤ 0
  · rw [if_pos h]
    nlinarith [sq_nonneg b]
  · rw [if_neg h]
    nlinarith [sq_nonneg (b - a)]

theorem xpForLevel_le_xpForLevel {a b : Int} (ha : 0 ≤ a) (hab : a ≤ b) :
    xpForLevel a ≤ xpForLevel b := by
  rcases eq_or_lt_of_le hab with h | h
  · rw [h]
  · exact (xpForLevel_lt_xpForLevel ha h).le

theorem levelLoop_spec (xp : Int) (fuel : Nat) :
    ∀ level : Nat, xpForLevel (level : Int) ≤ xp →
      xp < xpForLevel ((level : Int) + (fuel : Int)) →
      xpForLevel ((levelLoop xp level fuel : Nat) : Int) ≤ xp ∧
        xp < xpForLevel (((levelLoop xp level fuel : Nat) : Int) + 1) := by
  induction fuel with
  | zero =>
    intro level h1 h2
    simp only [Nat.cast_zero, add_zero] at h2
    exact absurd h2 (not_lt.mpr h1)
  | succ n ih =>
    intro level h1 h2
    simp only [levelLoop]
    by_cases h : xpForLevel ((level : Int) + 1) ≤ xp
    · rw [if_pos h]
      apply ih (level + 1)
      · push_cast
        exact h
      · push_cast at h2 ⊢
        have harg : (level : Int) + 1 + (n : Int) = (level : Int) + ((n : Int) + 1) := by ring
        rw [harg]
        exact h2
    · rw [if_neg h]
      exact ⟨h1, not_le.mp h⟩

theorem getLevelFromXP_spec {xp : Int} (hxp : 0 < xp) :
    xpForLevel (getLevelFromXP xp) ≤ xp ∧ xp < xpForLevel (getLevelFromXP xp + 1) := by
  have h0 : getLevelFromXP xp = ((levelLoop xp 0 xp.toNat : Nat) : Int) := by
    unfold getLevelFromXP
    rw [if_neg (by omega)]
  rw [h0]
  refine levelLoop_spec xp xp.toNat 0 ?_ ?_
  · simpa [xpForLevel] using hxp.le
  · have h2 : (((0 : Nat) : Int)) + ((xp.toNat : Nat) : Int) = xp := by omega
    rw [h2]
    unfold xpForLevel
    rw [if_neg (by omega)]
    nlinarith

theorem getLevelFromXP_nonneg (xp : Int) : 0 ≤ getLevelFromXP xp := by
  unfold getLevelFromXP
  split
  · exact le_refl 0
  · exact Int.natCast_nonneg _

theorem level_unique {xp a b : Int} (ha : 0 ≤ a) (hb : 0 ≤ b)
    (h1 : xpForLevel a ≤ xp) (h2 : xp < xpForLevel (a + 1))
    (h3 : xpForLevel b ≤ xp) (h4 : xp < xpForLevel (b + 1)) : a = b := by
  by_contra hne
  rcases lt_or_gt_of_ne hne with h | h
  · have hle : xpForLevel (a + 1) ≤ xpForLevel b := xpForLevel_le_xpForLevel (by omega) (by omega)
    omega
  · have hle : xpForLevel (b + 1) ≤ xpForLevel a := xpForLevel_le_xpForLevel (by omega) (by omega)
    omega

/-- C1 (counterexample): at L = 0 the claimed boundary equation
`levelFromExperience(experienceForLevel(L) - 1) = L - 1` fails on the code:
`getLevelFromXP (-1)` is 0, not -1, because the source returns 0 for any
`xp <= 0`. -/
theorem getLevelFromXP_at_neg_one_ne :
    ¬ (getLevelFromXP (xpForLevel 0 - 1) = 0 - 1) := by decide

/-- C1 (amended): for every L ≥ 0, `getLevelFromXP (xpForLevel L) = L`, and for
every L ≥ 1 also `getLevelFromXP (xpForLevel L - 1) = L - 1`; in particular
level 1 requires exactly 155 XP, so 154 XP gives level 0 and 155 XP gives
level 1. (The subtracted form necessarily excludes L = 0, where the code
clamps negative XP to level 0.) -/
theorem getLevelFromXP_xpForLevel_boundary (L : Int) (hL : 0 ≤ L) :
    getLevelFromXP (xpForLevel L) = L ∧
      (1 ≤ L → getLevelFromXP (xpForLevel L - 1) = L - 1) ∧
      getLevelFromXP 154 = 0 ∧ getLevelFromXP 155 = 1 := by
  refine ⟨?_, ?_, by decide, by decide⟩
  · rcases eq_or_lt_of_le hL with h0 | h1
    · rw [← h0]
      decide
    · have h1' : 1 ≤ L := h1
      have hxp : 0 < xpForLevel L := by
        unfold xpForLevel
        rw [if_neg (by omega)]
        nlinarith
      obtain ⟨hs1, hs2⟩ := getLevelFromXP_spec hxp
      exact level_unique (getLevelFromXP_nonneg _) hL hs1 hs2 (le_refl _)
        (xpForLevel_lt_xpForLevel hL (by omega))
  · intro h1
    have hxp : 0 < xpForLevel L - 1 := by
      unfold xpForLevel
      rw [if_neg (by omega)]
      nlinarith
    obtain ⟨hs1, hs2⟩ := getLevelFromXP_spec hxp
    have hc1 : xpForLevel (L - 1) ≤ xpForLevel L - 1 := by
      have := xpForLevel_lt_xpForLevel (a := L - 1) (b := L) (by omega) (by omega)
      omega
    have hc2 : xpForLevel L - 1 < xpForLevel ((L - 1) + 1) := by
      have : (L - 1) + 1 = L := by ring
      rw [this]
      omega
    exact level_unique (getLevelFromXP_nonneg _) (by omega) hs1 hs2 hc1 hc2

/-- C1 witness: the boundary theorem evaluated at L = 5 (and its 154/155
instances). -/
theorem getLevelFromXP_xpForLevel_boundary_witness :
    getLevelFromXP (xpForLevel 5) = 5 ∧ getLevelFromXP (xpForLevel 5 - 1) = 4 := by
  obtain ⟨h1, h2, _, _⟩ := getLevelFromXP_xpForLevel_boundary 5 (by decide)
  exact ⟨h1, h2 (by decide)⟩

/-- UserLevel record as the ledger reads and writes it, merging the Mongoose
document and its cache copy (every ledger write refreshes or invalidates the
cache with the merged result). -/
structure UserRecord where
  xp : Int
  level : Int
  lastMessageTimestamp : ℚ
  totalMessages : Int
deriving Repr, DecidableEq

/-- Domain events emitted by LevelingManager on the bus. -/
inductive DomainEvent
  | xpGained (amount : Int)
  | levelUp (oldLevel newLevel : Int)
  | xpLost (amount : Int)
  | levelDown (oldLevel newLevel : Int)
deriving Repr, DecidableEq

/-- LevelingManager.addXP restricted to its ledger effect: a non-positive
amount returns null with no state change and no event; otherwise the new
(xp, level) pair is persisted and `xpGained` is emitted, followed by `levelUp`
iff the level increased. The triple is (returned value, resulting record,
emitted events). -/
def addXP (amount : Int) (u : UserRecord) : Option UserRecord × UserRecord × List DomainEvent :=
  if amount ≤ 0 then (none, u, [])
  else
    let newXP := u.xp + amount
    let newLevel := getLevelFromXP newXP
    let u' : UserRecord := { u with xp := newXP, level := newLevel }
    (some u', u',
      DomainEvent.xpGained amount ::
        (if u.level < newLevel then [DomainEvent.levelUp u.level newLevel] else []))

/-- LevelingManager.removeXP restricted to its ledger effect: a non-positive
amount returns null with no state change and no event; otherwise the XP is
floored at 0, the level recomputed, `xpLost` emitted, and `levelDown` emitted
iff the level decreased. -/
def removeXP (amount : Int) (u : UserRecord) : Option UserRecord × UserRecord × List DomainEvent :=
  if amount ≤ 0 then (none, u, [])
  else
    let newXP := max 0 (u.xp - amount)
    let newLevel := getLevelFromXP newXP
    let u' : UserRecord := { u with xp := newXP, level := newLevel }
    (some u', u',
      DomainEvent.xpLost amount ::
        (if newLevel < u.level then [DomainEvent.levelDown u.level newLevel] else []))

/-- Predicate picking the `levelDown` event out of an emitted batch. -/
def emitsLevelDown (events : List DomainEvent) : Bool :=
  events.any fun e =>
    match e with
    | DomainEvent.levelDown _ _ => true
    | _ => false

/-- C5: for every amount > 0, removeXP stores `max 0 (xp - amount)` (never
negative), recomputes the level from the new XP, and emits `levelDown` iff the
new level is below the old one; additionally `getLevelFromXP 0 = 0`. -/
theorem removeXP_floor_and_levelDown (amount : Int) (u : UserRecord) (h : 0 < amount) :
    (removeXP amount u).2.1.xp = max 0 (u.xp - amount) ∧
      0 ≤ (removeXP amount u).2.1.xp ∧
      (removeXP amount u).2.1.level = getLevelFromXP (max 0 (u.xp - amount)) ∧
      (emitsLevelDown (removeXP amount u).2.2 = true ↔
        getLevelFromXP (max 0 (u.xp - amount)) < u.level) ∧
      getLevelFromXP 0 = 0 := by
  have hna : ¬ amount ≤ 0 := by omega
  refine ⟨?_, ?_, ?_, ?_, by decide⟩
  · simp [removeXP, hna]
  · simp [removeXP, hna]
  · simp [removeXP, hna]
  · simp only [removeXP, if_neg hna, emitsLevelDown]
    by_cases hlt : getLevelFromXP (max 0 (u.xp - amount)) < u.level
    · simp [hlt]
    · simp [hlt]

/-- C5 witness: removing 5 XP from a user holding 3 XP at level 0. -/
theorem removeXP_floor_and_levelDown_witness :
    (0 : Int) < 5 ∧
      ((removeXP 5 ⟨3, 0, 0, 0⟩).2.1.xp = max 0 ((3 : Int) - 5) ∧
        0 ≤ (removeXP 5 ⟨3, 0, 0, 0⟩).2.1.xp ∧
        (removeXP 5 ⟨3, 0, 0, 0⟩).2.1.level = getLevelFromXP (max 0 ((3 : Int) - 5)) ∧
        (emitsLevelDown (removeXP 5 ⟨3, 0, 0, 0⟩).2.2 = true ↔
          getLevelFromXP (max 0 ((3 : Int) - 5)) < (0 : Int)) ∧
        getLevelFromXP 0 = 0) :=
  ⟨by decide, removeXP_floor_and_levelDown 5 ⟨3, 0, 0, 0⟩ (by decide)⟩

/-- The user record created on first read (upsert with zero defaults). -/
def freshUser : UserRecord := ⟨0, 0, 0, 0⟩

/-- C6: addXP is additive on a fresh user: granting a then b gives the same
final (xp, level) pair as granting a + b once. -/
theorem addXP_additive (a b : Int) (ha : 0 < a) (hb : 0 < b) :
    (addXP b (addXP a freshUser).2.1).2.1.xp = (addXP (a + b) freshUser).2.1.xp ∧
      (addXP b (addXP a freshUser).2.1).2.1.level = (addXP (a + b) freshUser).2.1.level := by
  have hna : ¬ a ≤ 0 := by omega
  have hnb : ¬ b ≤ 0 := by omega
  have hnab : ¬ a + b ≤ 0 := by omega
  constructor
  · simp [addXP, freshUser, hna, hnb, hnab]
  · simp [addXP, freshUser, hna, hnb, hnab]

/-- C6 witness: granting 100 then 200 equals granting 300 once. -/
theorem addXP_additive_witness :
    (addXP 200 (addXP 100 freshUser).2.1).2.1.xp = (addXP 300 freshUser).2.1.xp ∧
      (addXP 200 (addXP 100 freshUser).2.1).2.1.level = (addXP 300 freshUser).2.1.level := by
  have h := addXP_additive 100 200 (by decide) (by decide)
  simpa using h

/-- C8: a non-positive amount makes both addXP and removeXP return null
synchronously, with the record unchanged and no event emitted. -/
theorem nonpositive_amount_is_noop (amount : Int) (u : UserRecord) (h : amount ≤ 0) :
    addXP amount u = (none, u, []) ∧ removeXP amount u = (none, u, []) := by
  constructor
  · simp [addXP, h]
  · simp [removeXP, h]

/-- C8 witness: amount 0 and amount -7 on a concrete record. -/
theorem nonpositive_amount_is_noop_witness :
    addXP 0 ⟨42, 0, 0, 3⟩ = (none, ⟨42, 0, 0, 3⟩, []) ∧
      removeXP 0 ⟨42, 0, 0, 3⟩ = (none, ⟨42, 0, 0, 3⟩, []) :=
  nonpositive_amount_is_noop 0 ⟨42, 0, 0, 3⟩ (by decide)

/-- Guild configuration fields consumed by the message-XP gatekeeper
(GuildConfig schema defaults plus `_normalizeConfig` output). The Mongoose
`Map` fields are association lists iterated in entry order. -/
structure GuildCfg where
  xpPerMessage : ℚ
  messageCooldownSeconds : ℚ
  roleMultipliers : List (String × ℚ)
  channelMultipliers : List (String × ℚ)
  ignoredRoles : List String
  ignoredChannels : List String
deriving Repr, DecidableEq

/-- The `highestRoleMultiplier` fold inside XPManager.handleMessageXP. The
accumulator starts at 1.0 and is replaced only when a configured multiplier is
truthy (nonzero) and strictly larger: `if (multiplier && multiplier >
highestRoleMultiplier)`. -/
def highestRoleMultiplier (roleMultipliers : List (String × ℚ)) (memberRoles : List String) : ℚ :=
  memberRoles.foldl
    (fun acc roleId =>
      match roleMultipliers.lookup roleId with
      | some m => if m ≠ 0 ∧ acc < m then m else acc
      | none => acc)
    1

/-- The `finalMultiplier` computation of XPManager.handleMessageXP: the role
fold applies only when the multiplier map is nonempty; the channel factor
applies when the channel has an entry, `|| 1.0` replacing a falsy (zero)
value; the product is clamped to be nonnegative. -/
def messageFinalMultiplier (cfg : GuildCfg) (memberRoles : List String) (channelId : String) : ℚ :=
  let f1 : ℚ :=
    if cfg.roleMultipliers ≠ [] then highestRoleMultiplier cfg.roleMultipliers memberRoles else 1
  let f2 : ℚ :=
    match cfg.channelMultipliers.lookup channelId with
    | some c => f1 * (if c = 0 then 1 else c)
    | none => f1
  max 0 f2

/-- The grant amount of XPManager.handleMessageXP:
`gainedXP = Math.max(1, Math.floor(baseXpPerMessage * finalMultiplier))`. -/
def gainedMessageXP (cfg : GuildCfg) (memberRoles : List String) (channelId : String) : Int :=
  max 1 ⌊cfg.xpPerMessage * messageFinalMultiplier cfg memberRoles channelId⌋

/-- Modelled from the claim C2 wording (for comparison with the code): the
multiplier is the maximum configured multiplier across the actor's roles that
have one (1.0 if none), times the channel's configured multiplier when the
channel has one (1.0 otherwise), with the product clamped to be nonnegative. -/
def claimedMessageMultiplier (cfg : GuildCfg) (memberRoles : List String) (channelId : String) : ℚ :=
  let configured := memberRoles.filterMap fun r => cfg.roleMultipliers.lookup r
  let roleFactor : ℚ :=
    match configured with
    | [] => 1
    | m :: ms => ms.foldl max m
  let channelFactor : ℚ :=
    match cfg.channelMultipliers.lookup channelId with
    | some c => c
    | none => 1
  max 0 (roleFactor * channelFactor)

/-- The grant amount as claim C2 states it. -/
def claimedGainedMessageXP (cfg : GuildCfg) (memberRoles : List String) (channelId : String) : Int :=
  max 1 ⌊cfg.xpPerMessage * claimedMessageMultiplier cfg memberRoles channelId⌋

/-- Context of one message event as seen by XPManager.handleMessageXP
(the fields it reads from the discord.js Message and GuildMember). -/
structure MsgCtx where
  authorBot : Bool
  inGuild : Bool
  hasContent : Bool
  isSystem : Bool
  hasMember : Bool
  channelId : String
  memberRoles : List String
deriving Repr, DecidableEq

/-- XPManager.handleMessageXP as a state transformer over the user's record:
the reject checks in source order (bot/DM/empty/system/no-member, zero base
rate, ignored channel, ignored role, cooldown), then the unconditional
timestamp/counter update followed by the addXP call. Returns (granted amount
or none, resulting record, emitted events). -/
def handleMessageXP (cfg : GuildCfg) (msg : MsgCtx) (now : ℚ) (u : UserRecord) :
    Option Int × UserRecord × List DomainEvent :=
  if msg.authorBot || !msg.inGuild || !msg.hasContent || msg.isSystem || !msg.hasMember then
    (none, u, [])
  else if cfg.xpPerMessage ≤ 0 then (none, u, [])
  else if cfg.ignoredChannels.contains msg.channelId then (none, u, [])
  else if msg.memberRoles.any (fun r => cfg.ignoredRoles.contains r) then (none, u, [])
  else if now < u.lastMessageTimestamp + cfg.messageCooldownSeconds * 1000 then (none, u, [])
  else
    let gained := gainedMessageXP cfg msg.memberRoles msg.channelId
    let u1 : UserRecord :=
      { u with lastMessageTimestamp := now, totalMessages := u.totalMessages + 1 }
    let r := addXP gained u1
    (some gained, r.2.1, r.2.2)

theorem one_le_gainedMessageXP (cfg : GuildCfg) (memberRoles : List String) (channelId : String) :
    1 ≤ gainedMessageXP cfg memberRoles channelId :=
  le_max_left 1 _

theorem filterMap_lookup_nil (roles : List String) :
    (roles.filterMap fun r => (([] : List (String × ℚ)).lookup r)) = [] := by
  induction roles with
  | nil => rfl
  | cons r rs ih =>
    rw [List.filterMap_cons]
    exact ih

theorem highestRoleMultiplier_eq_foldl_max (rm : List (String × ℚ)) (roles : List String) :
    ∀ acc : ℚ,
      roles.foldl
        (fun acc roleId =>
          match rm.lookup roleId with
          | some m => if m ≠ 0 ∧ acc < m then m else acc
          | none => acc) acc
      = ((roles.filterMap fun r => rm.lookup r).filter fun m => decide (m ≠ 0)).foldl max acc := by
  induction roles with
  | nil =>
    intro acc
    rfl
  | cons r rs ih =>
    intro acc
    rw [List.foldl_cons, List.filterMap_cons]
    cases h : rm.lookup r with
    | none =>
      exact ih acc
    | some m =>
      show List.foldl
          (fun acc roleId =>
            match rm.lookup roleId with
            | some m => if m ≠ 0 ∧ acc < m then m else acc
            | none => acc)
          (if m ≠ 0 ∧ acc < m then m else acc) rs
        = List.foldl max acc
            ((m :: (rs.filterMap fun r => rm.lookup r)).filter fun m => decide (m ≠ 0))
      rw [List.filter_cons]
      by_cases hm : m = 0
      · subst hm
        rw [if_neg (by simp), if_neg (by simp)]
        exact ih acc
      · have hstep : (if m ≠ 0 ∧ acc < m then m else acc) = max acc m := by
          by_cases hlt : acc < m
          · rw [if_pos ⟨hm, hlt⟩, max_eq_right hlt.le]
          · rw [if_neg (by tauto), max_eq_left (not_lt.mp hlt)]
        rw [hstep, if_pos (by simpa using hm), List.foldl_cons]
        exact ih (max acc m)

/-- The multiplier XPManager.handleMessageXP actually computes, written in
closed form: the maximum of 1.0 and the configured nonzero multipliers of the
actor's roles, times the channel's configured multiplier when that value is
nonzero (1.0 otherwise), clamped to be nonnegative. -/
def amendedMessageMultiplier (cfg : GuildCfg) (memberRoles : List String) (channelId : String) : ℚ :=
  max 0 ((((memberRoles.filterMap fun r => cfg.roleMultipliers.lookup r).filter
      fun m => decide (m ≠ 0)).foldl max 1) *
    (match cfg.channelMultipliers.lookup channelId with
     | some c => if c = 0 then 1 else c
     | none => 1))

theorem messageFinalMultiplier_eq_amended (cfg : GuildCfg) (roles : List String) (ch : String) :
    messageFinalMultiplier cfg roles ch = amendedMessageMultiplier cfg roles ch := by
  unfold messageFinalMultiplier amendedMessageMultiplier
  have hrole :
      (if cfg.roleMultipliers ≠ [] then highestRoleMultiplier cfg.roleMultipliers roles else 1)
        = ((roles.filterMap fun r => cfg.roleMultipliers.lookup r).filter
            fun m => decide (m ≠ 0)).foldl max 1 := by
    by_cases hrm : cfg.roleMultipliers = []
    · rw [if_neg (by simp [hrm])]
      simp only [hrm]
      rw [filterMap_lookup_nil roles]
      rfl
    · rw [if_pos hrm]
      exact highestRoleMultiplier_eq_foldl_max cfg.roleMultipliers roles 1
  rw [hrole]
  cases hc : cfg.channelMultipliers.lookup ch with
  | none => simp
  | some c => simp

theorem gainedMessageXP_eq_amended (cfg : GuildCfg) (roles : List String) (ch : String) :
    gainedMessageXP cfg roles ch =
      max 1 ⌊cfg.xpPerMessage * amendedMessageMultiplier cfg roles ch⌋ := by
  unfold gainedMessageXP
  rw [messageFinalMultiplier_eq_amended]

/-- C2 (counterexample): a message event that passes every reject check, where
the actor's only role has a configured multiplier of 0.5 with base rate 15.
The code grants 15 (its fold starts at 1.0 and is only ever raised), while the
claim's formula gives max(1, floor(15 * 0.5)) = 7. -/
theorem handleMessageXP_grant_ne_claimed :
    (handleMessageXP ⟨15, 60, [("r", 1/2)], [], [], []⟩
        ⟨false, true, true, false, true, "c", ["r"]⟩ 100000 freshUser).1 = some 15 ∧
      claimedGainedMessageXP ⟨15, 60, [("r", 1/2)], [], [], []⟩ ["r"] "c" = 7 ∧
      (15 : Int) ≠ 7 := by
  refine ⟨?_, ?_, by decide⟩
  · have hcd : ¬ ((100000 : ℚ) < 0 + 60 * 1000) := by norm_num
    simp only [handleMessageXP, freshUser]
    norm_num [gainedMessageXP, messageFinalMultiplier, highestRoleMultiplier, List.lookup]
  · norm_num [claimedGainedMessageXP, claimedMessageMultiplier, List.filterMap, List.lookup]

/-- C2 (amended): every message event that passes all of the gatekeeper's
reject checks is granted `max 1 ⌊baseRate * m⌋` points, where `m` is the
maximum of 1.0 and the configured nonzero multipliers of the actor's roles,
times the channel's configured multiplier when it is nonzero (1.0 otherwise),
clamped to be nonnegative; in particular every eligible event yields at least
one point. -/
theorem handleMessageXP_grant_amount (cfg : GuildCfg) (msg : MsgCtx) (now : ℚ) (u : UserRecord)
    (g : Int) (hg : (handleMessageXP cfg msg now u).1 = some g) :
    g = max 1 ⌊cfg.xpPerMessage * amendedMessageMultiplier cfg msg.memberRoles msg.channelId⌋ ∧
      1 ≤ g := by
  have hval : g = gainedMessageXP cfg msg.memberRoles msg.channelId := by
    unfold handleMessageXP at hg
    split_ifs at hg <;> simp_all
  constructor
  · rw [hval]
    exact gainedMessageXP_eq_amended cfg msg.memberRoles msg.channelId
  · rw [hval]
    exact one_le_gainedMessageXP cfg msg.memberRoles msg.channelId

/-- C2 witness: the amended grant formula evaluated on the counterexample
event (base rate 15, role multiplier 0.5, grant 15). -/
theorem handleMessageXP_grant_amount_witness :
    (15 : Int) = max 1 ⌊(⟨15, 60, [("r", 1/2)], [], [], []⟩ : GuildCfg).xpPerMessage *
        amendedMessageMultiplier ⟨15, 60, [("r", 1/2)], [], [], []⟩
          (⟨false, true, true, false, true, "c", ["r"]⟩ : MsgCtx).memberRoles
          (⟨false, true, true, false, true, "c", ["r"]⟩ : MsgCtx).channelId⌋ ∧
      (1 : Int) ≤ 15 :=
  handleMessageXP_grant_amount ⟨15, 60, [("r", 1/2)], [], [], []⟩
    ⟨false, true, true, false, true, "c", ["r"]⟩ 100000 freshUser 15
    handleMessageXP_grant_ne_claimed.1

/-- C4: among message events that pass every other reject check, an event is
rejected iff `now < lastMessageTimestamp + cooldownSeconds * 1000` (strict, so
an event exactly at the boundary is granted); and with a 60-second cooldown,
two events 1 ms apart yield exactly one grant while the same two events 61
seconds apart yield two grants. -/
theorem handleMessageXP_cooldown (cfg : GuildCfg) (msg : MsgCtx) (now : ℚ) (u : UserRecord)
    (hbot : msg.authorBot = false) (hgld : msg.inGuild = true) (hcont : msg.hasContent = true)
    (hsys : msg.isSystem = false) (hmem : msg.hasMember = true)
    (hbase : 0 < cfg.xpPerMessage)
    (hch : cfg.ignoredChannels.contains msg.channelId = false)
    (hrole : (msg.memberRoles.any fun r => cfg.ignoredRoles.contains r) = false) :
    ((handleMessageXP cfg msg now u).1 = none ↔
        now < u.lastMessageTimestamp + cfg.messageCooldownSeconds * 1000) ∧
      (cfg.messageCooldownSeconds = 60 →
        ¬ now < u.lastMessageTimestamp + 60 * 1000 →
        (handleMessageXP cfg msg now u).1.isSome = true ∧
          (handleMessageXP cfg msg (now + 1) (handleMessageXP cfg msg now u).2.1).1 = none ∧
          (handleMessageXP cfg msg (now + 61 * 1000)
              (handleMessageXP cfg msg now u).2.1).1.isSome = true) := by
  have hpre : (msg.authorBot || !msg.inGuild || !msg.hasContent || msg.isSystem
      || !msg.hasMember) = false := by
    simp [hbot, hgld, hcont, hsys, hmem]
  have hnb : ¬ cfg.xpPerMessage ≤ 0 := not_le.mpr hbase
  have hch' : msg.channelId ∉ cfg.ignoredChannels := by simpa using hch
  have hrole' : ¬ ∃ x ∈ msg.memberRoles, x ∈ cfg.ignoredRoles := by simpa using hrole
  constructor
  · by_cases hcd : now < u.lastMessageTimestamp + cfg.messageCooldownSeconds * 1000
    · simp [handleMessageXP, hpre, hnb, hch', hrole', hcd]
    · simp [handleMessageXP, hpre, hnb, hch', hrole', hcd]
  · intro h60 hfirst
    have hcd : ¬ now < u.lastMessageTimestamp + cfg.messageCooldownSeconds * 1000 := by
      rw [h60]
      exact hfirst
    have hgain : ¬ gainedMessageXP cfg msg.memberRoles msg.channelId ≤ 0 := by
      have := one_le_gainedMessageXP cfg msg.memberRoles msg.channelId
      omega
    have hfst : (handleMessageXP cfg msg now u).1 =
        some (gainedMessageXP cfg msg.memberRoles msg.channelId) := by
      simp [handleMessageXP, hpre, hnb, hch', hrole', hcd]
    have hstep : (handleMessageXP cfg msg now u).2.1 =
        { xp := u.xp + gainedMessageXP cfg msg.memberRoles msg.channelId,
          level := getLevelFromXP (u.xp + gainedMessageXP cfg msg.memberRoles msg.channelId),
          lastMessageTimestamp := now,
          totalMessages := u.totalMessages + 1 } := by
      simp [handleMessageXP, hpre, hnb, hch', hrole', hcd, addXP, hgain]
    refine ⟨by rw [hfst]; rfl, ?_, ?_⟩
    · rw [hstep]
      have hcd2 : now + 1 < now + cfg.messageCooldownSeconds * 1000 := by
        rw [h60]
        linarith
      simp [handleMessageXP, hpre, hnb, hch', hrole', hcd2]
    · rw [hstep]
      have hcd3 : ¬ now + 61 * 1000 < now + cfg.messageCooldownSeconds * 1000 := by
        rw [h60]
        linarith
      simp [handleMessageXP, hpre, hnb, hch', hrole', hcd3]

/-- C4 witness: two concrete events 1 ms apart under the default 60-second
cooldown, the second rejected. -/
theorem handleMessageXP_cooldown_witness :
    (handleMessageXP ⟨15, 60, [], [], [], []⟩ ⟨false, true, true, false, true, "c", []⟩
        (100000 + 1)
        (handleMessageXP ⟨15, 60, [], [], [], []⟩ ⟨false, true, true, false, true, "c", []⟩
          100000 freshUser).2.1).1 = none :=
  ((handleMessageXP_cooldown ⟨15, 60, [], [], [], []⟩ ⟨false, true, true, false, true, "c", []⟩
      100000 freshUser rfl rfl rfl rfl rfl (by norm_num) rfl rfl).2 rfl
    (by norm_num [freshUser])).2.1

/-- The role-addition rule of the level-up path in LevelingManager.addXP: for
every (requiredLevel, roleId) entry, add the role when `newLevel >=
requiredLevel && oldLevel < requiredLevel && !member.roles.cache.has(roleId)`.
Reward-map keys are the already-parsed integer levels. -/
def rolesToAdd (levelRoles : List (Int × String)) (oldLevel newLevel : Int)
    (memberRoles : List String) : List String :=
  (levelRoles.filter fun p =>
    decide (p.1 ≤ newLevel) && decide (oldLevel < p.1) && !(memberRoles.contains p.2)).map
    Prod.snd

/-- The `isRewardForCurrentLevel` inner scan of the remove_previous branch:
the roleId is also the reward mapped for exactly `lvl`. -/
def isRewardForLevel (levelRoles : List (Int × String)) (lvl : Int) (roleId : String) : Bool :=
  levelRoles.any fun p => p.1 == lvl && p.2 == roleId

/-- The remove_previous branch of LevelingManager.addXP: mark every
reward-mapped role the member currently holds whose requiredLevel is below the
new level, unless that same roleId is also the reward for exactly the new
level. -/
def rolesToRemovePrevious (levelRoles : List (Int × String)) (newLevel : Int)
    (currentRoles : List String) : List String :=
  (levelRoles.filter fun p =>
    decide (p.1 < newLevel) && currentRoles.contains p.2 &&
      !(isRewardForLevel levelRoles newLevel p.2)).map Prod.snd

/-- The net role set after one level-up transition under remove_previous:
`member.roles.add` runs before the removal scan, so the removal scan sees the
freshly added roles in `member.roles.cache`. -/
def levelUpNetRoles (levelRoles : List (Int × String)) (oldLevel newLevel : Int)
    (memberRoles : List String) : List String :=
  let added := rolesToAdd levelRoles oldLevel newLevel memberRoles
  let afterAdd := memberRoles ++ added
  let removed := rolesToRemovePrevious levelRoles newLevel afterAdd
  afterAdd.filter fun r => !(removed.contains r)

/-- C3 (counterexample): with rewards 5 to A, 10 to B, 15 to C and a jump from
level 4 to 12, the removal scan also marks B — requiredLevel 10 < 12 and B is
not the reward for exactly level 12 — so the net reward roles held after the
transition are empty, not B as the claim's example states. -/
theorem levelUpNetRoles_jump_example_ne :
    rolesToRemovePrevious [(5, "A"), (10, "B"), (15, "C")] 12 ["A", "B"] = ["A", "B"] ∧
      levelUpNetRoles [(5, "A"), (10, "B"), (15, "C")] 4 12 [] = [] ∧
      ([] : List String) ≠ ["B"] := by
  refine ⟨by decide, by decide, by decide⟩

/-- C3 (amended): under remove_previous, a role is marked for removal iff some
reward entry maps a level below newLevel to it, the actor currently holds it,
and it is not also the reward for exactly newLevel; with rewards 5 to A, 10 to
B, 15 to C and a jump from level 4 to 12 the added roles are A and B, but both
are then marked for removal (neither is the level-12 reward), so the net
reward roles held after the transition are empty. -/
theorem rolesToRemovePrevious_spec :
    (∀ (levelRoles : List (Int × String)) (newLevel : Int) (currentRoles : List String)
        (roleId : String),
      roleId ∈ rolesToRemovePrevious levelRoles newLevel currentRoles ↔
        ∃ req : Int, (req, roleId) ∈ levelRoles ∧ req < newLevel ∧ roleId ∈ currentRoles ∧
          isRewardForLevel levelRoles newLevel roleId = false) ∧
      rolesToAdd [(5, "A"), (10, "B"), (15, "C")] 4 12 [] = ["A", "B"] ∧
      levelUpNetRoles [(5, "A"), (10, "B"), (15, "C")] 4 12 [] = [] := by
  refine ⟨?_, by decide, by decide⟩
  intro levelRoles newLevel currentRoles roleId
  constructor
  · intro hmem
    rw [rolesToRemovePrevious, List.mem_map] at hmem
    obtain ⟨⟨req, rid⟩, hp, hsnd⟩ := hmem
    rw [List.mem_filter] at hp
    obtain ⟨hpl, hcond⟩ := hp
    simp only [Bool.and_eq_true, decide_eq_true_eq, Bool.not_eq_true'] at hcond
    subst hsnd
    refine ⟨req, ?_, hcond.1.1, ?_, hcond.2⟩
    · simpa using hpl
    · simpa using hcond.1.2
  · intro ⟨req, hin, hlt, hcur, hnot⟩
    rw [rolesToRemovePrevious, List.mem_map]
    refine ⟨(req, roleId), ?_, rfl⟩
    rw [List.mem_filter]
    refine ⟨hin, ?_⟩
    simp only [Bool.and_eq_true, decide_eq_true_eq, Bool.not_eq_true']
    exact ⟨⟨hlt, by simpa using hcur⟩, hnot⟩

/-- One row of the UserLevel collection as the leaderboard query reads it;
`updatedAt` is the Mongoose timestamp of the last write. -/
structure DBUser where
  guildId : String
  userId : String
  xp : Int
  level : Int
  updatedAt : Int
deriving Repr, DecidableEq

/-- The sort order of `.sort(xp: -1, updatedAt: -1)`: experience descending,
ties broken by most-recently-updated first. -/
def lbOrder (a b : DBUser) : Prop :=
  b.xp < a.xp ∨ (a.xp = b.xp ∧ b.updatedAt ≤ a.updatedAt)

instance : DecidableRel lbOrder := fun a b => by
  unfold lbOrder
  infer_instance

instance : IsTotal DBUser lbOrder :=
  ⟨fun a b => by
    unfold lbOrder
    omega⟩

instance : IsTrans DBUser lbOrder :=
  ⟨fun a b c hab hbc => by
    unfold lbOrder at *
    omega⟩

/-- LevelingManager.getLeaderboard: clamp the limit to [1, 50], keep the
guild's rows with positive XP, sort by (xp desc, updatedAt desc), take the
clamped limit. -/
def getLeaderboard (db : List DBUser) (guildId : String) (limit : Int) : List DBUser :=
  let safeLimit := max 1 (min limit 50)
  ((db.filter fun u => u.guildId == guildId && decide (0 < u.xp)).insertionSort lbOrder).take
    safeLimit.toNat

/-- C7: the leaderboard only contains the guild's users with positive XP, is
sorted by experience descending with ties broken by most-recent update, has
length min(clamped limit, number of qualifying users) — so limit 10 over 3
qualifying users returns exactly 3 — and every entry dominates every
qualifying user left out. -/
theorem getLeaderboard_spec (db : List DBUser) (g : String) (limit : Int) :
    (∀ u ∈ getLeaderboard db g limit, 0 < u.xp ∧ u.guildId = g) ∧
      List.Sorted lbOrder (getLeaderboard db g limit) ∧
      (getLeaderboard db g limit).length =
        min (max 1 (min limit 50)).toNat
          (db.filter fun u => u.guildId == g && decide (0 < u.xp)).length ∧
      ((db.filter fun u => u.guildId == g && decide (0 < u.xp)).length = 3 → limit = 10 →
        (getLeaderboard db g limit).length = 3) ∧
      (∀ u ∈ getLeaderboard db g limit,
        ∀ v ∈ db.filter fun u => u.guildId == g && decide (0 < u.xp),
          v ∉ getLeaderboard db g limit → lbOrder u v) := by
  have hperm := List.perm_insertionSort lbOrder (db.filter fun u => u.guildId == g && decide (0 < u.xp))
  have hsorted := List.sorted_insertionSort lbOrder (db.filter fun u => u.guildId == g && decide (0 < u.xp))
  have hlb : getLeaderboard db g limit =
      ((db.filter fun u => u.guildId == g && decide (0 < u.xp)).insertionSort lbOrder).take
        (max 1 (min limit 50)).toNat := rfl
  have hlen : (getLeaderboard db g limit).length =
      min (max 1 (min limit 50)).toNat
        (db.filter fun u => u.guildId == g && decide (0 < u.xp)).length := by
    rw [hlb, List.length_take, hperm.length_eq]
  refine ⟨?_, ?_, hlen, ?_, ?_⟩
  · intro u hu
    rw [hlb] at hu
    have hu' := hperm.mem_iff.mp (List.mem_of_mem_take hu)
    rw [List.mem_filter] at hu'
    obtain ⟨-, hcond⟩ := hu'
    simp only [Bool.and_eq_true, beq_iff_eq, decide_eq_true_eq] at hcond
    exact ⟨hcond.2, hcond.1⟩
  · rw [hlb]
    exact List.Pairwise.sublist (List.take_sublist _ _) hsorted
  · intro h3 h10
    rw [hlen, h3, h10]
    decide
  · intro u hu v hv hnv
    have hvs : v ∈ (db.filter fun u => u.guildId == g && decide (0 < u.xp)).insertionSort
        lbOrder := hperm.mem_iff.mpr hv
    have hdecomp := (List.take_append_drop (max 1 (min limit 50)).toNat
      ((db.filter fun u => u.guildId == g && decide (0 < u.xp)).insertionSort lbOrder)).symm
    rw [hdecomp] at hvs
    rcases List.mem_append.mp hvs with hvt | hvd
    · exact absurd (hlb ▸ hvt) hnv
    · have hpw := hdecomp ▸ hsorted
      exact (List.pairwise_append.mp hpw).2.2 u (hlb ▸ hu) v hvd

/-- The strategy whitelist of GuildConfigManager and the GuildConfig schema. -/
def VALID_STRATEGIES : List String := ["keep_all", "highest_only", "remove_previous"]

/-- The leaderboard style whitelist of GuildConfigManager and the schema. -/
def VALID_STYLES : List String := ["card", "text"]

/-- Raw configuration input (from the DB document or the default config) for
the two enum fields of `_normalizeConfig`; `none` is an absent field. -/
structure RawGuildCfg where
  roleRemovalStrategy : Option String
  leaderboardStyle : Option String
deriving Repr, DecidableEq

/-- The roleRemovalStrategy line of `_normalizeConfig`: keep the value when it
is in the whitelist, else fall back to keep_all (an absent field is not in the
whitelist either). -/
def normalizeStrategy (v : Option String) : String :=
  match v with
  | some s => if VALID_STRATEGIES.contains s then s else "keep_all"
  | none => "keep_all"

/-- The leaderboardStyle line of `_normalizeConfig`: keep the value when it is
card or text, else fall back to card. -/
def normalizeStyle (v : Option String) : String :=
  match v with
  | some s => if VALID_STYLES.contains s then s else "card"
  | none => "card"

/-- One enum field of `updateConfig`: an absent field keeps the stored value;
a whitelisted value is applied; a truthy invalid value is deleted from the
update (stored value kept); a falsy invalid value (the empty string) survives
the guard, reaches the `$set` with `runValidators`, and the schema enum
rejects the whole update (`none`). -/
def updateEnumField (valid : List String) (stored supplied : Option String) :
    Option (Option String) :=
  match supplied with
  | none => some stored
  | some v =>
    if valid.contains v then some (some v)
    else if v = "" then none
    else some stored

/-- GuildConfigManager.updateConfig on the two enum fields: both guards run,
then the merged document is stored (or the update fails). -/
def updateCfg (stored upd : RawGuildCfg) : Option RawGuildCfg :=
  match updateEnumField VALID_STRATEGIES stored.roleRemovalStrategy upd.roleRemovalStrategy,
      updateEnumField VALID_STYLES stored.leaderboardStyle upd.leaderboardStyle with
  | some s, some t => some ⟨s, t⟩
  | _, _ => none

/-- C9 (counterexample): updating a guild whose stored strategy is
remove_previous with the invalid value "bogus" skips the field (the code
deletes it from the update), so the effective strategy stays remove_previous
rather than being coerced to the claimed safe default keep_all. -/
theorem updateCfg_invalid_keeps_previous :
    updateCfg ⟨some "remove_previous", some "card"⟩ ⟨some "bogus", none⟩ =
        some ⟨some "remove_previous", some "card"⟩ ∧
      normalizeStrategy (some "remove_previous") = "remove_previous" ∧
      "remove_previous" ≠ "keep_all" := by
  refine ⟨by decide, by decide, by decide⟩

theorem normalizeStrategy_mem (v : Option String) :
    normalizeStrategy v ∈ VALID_STRATEGIES := by
  unfold normalizeStrategy
  cases v with
  | none => decide
  | some s =>
    show (if VALID_STRATEGIES.contains s = true then s else "keep_all") ∈ VALID_STRATEGIES
    by_cases h : VALID_STRATEGIES.contains s = true
    · rw [if_pos h]
      simpa using h
    · rw [if_neg h]
      decide

theorem normalizeStyle_mem (v : Option String) : normalizeStyle v ∈ VALID_STYLES := by
  unfold normalizeStyle
  cases v with
  | none => decide
  | some s =>
    show (if VALID_STYLES.contains s = true then s else "card") ∈ VALID_STYLES
    by_cases h : VALID_STYLES.contains s = true
    · rw [if_pos h]
      simpa using h
    · rw [if_neg h]
      decide

theorem updateEnumField_invalid (valid : List String) (stored : Option String) (v : String)
    (hnv : valid.contains v = false) (hne : v ≠ "") :
    updateEnumField valid stored (some v) = some stored := by
  unfold updateEnumField
  show (if valid.contains v = true then some (some v)
      else if v = "" then none else some stored) = some stored
  rw [if_neg (by simpa using hnv), if_neg hne]

/-- C9 (amended): the normalized (effective) configuration always has its
roleRemovalStrategy among the three valid strategies and its leaderboardStyle
among card and text — an invalid stored value is coerced to the safe default
when the configuration is read and normalized — and any successful update
preserves this invariant; however an invalid truthy value supplied to
updateConfig is skipped, leaving the previously stored value, rather than
being coerced to the default (and a falsy invalid value is rejected by the
schema validators). -/
theorem configEnum_invariant :
    (∀ c : RawGuildCfg, normalizeStrategy c.roleRemovalStrategy ∈ VALID_STRATEGIES ∧
        normalizeStyle c.leaderboardStyle ∈ VALID_STYLES) ∧
      (∀ stored upd c', updateCfg stored upd = some c' →
        normalizeStrategy c'.roleRemovalStrategy ∈ VALID_STRATEGIES ∧
          normalizeStyle c'.leaderboardStyle ∈ VALID_STYLES) ∧
      (∀ stored upd c' v, upd.roleRemovalStrategy = some v → v ∉ VALID_STRATEGIES → v ≠ "" →
        updateCfg stored upd = some c' →
          c'.roleRemovalStrategy = stored.roleRemovalStrategy) ∧
      normalizeStrategy (some "bogus") = "keep_all" ∧
      normalizeStyle (some "bogus") = "card" := by
  refine ⟨?_, ?_, ?_, by decide, by decide⟩
  · intro c
    exact ⟨normalizeStrategy_mem _, normalizeStyle_mem _⟩
  · intro stored upd c' _
    exact ⟨normalizeStrategy_mem _, normalizeStyle_mem _⟩
  · intro stored upd c' v hv hnv hne hupd
    have hcon : VALID_STRATEGIES.contains v = false := by
      simpa using hnv
    unfold updateCfg at hupd
    rw [hv, updateEnumField_invalid VALID_STRATEGIES stored.roleRemovalStrategy v hcon hne]
      at hupd
    cases hsty : updateEnumField VALID_STYLES stored.leaderboardStyle upd.leaderboardStyle with
    | none =>
      rw [hsty] at hupd
      exact absurd hupd (by simp)
    | some t =>
      rw [hsty] at hupd
      simp only [Option.some.injEq] at hupd
      rw [← hupd]

/-- The VoiceManager sweep interval: 5 minutes in milliseconds. -/
def voiceIntervalMillis : ℚ := 300000

/-- The events touching one (guild, user) key of `voiceJoinTimes`:
a voiceStateUpdate with the old and new eligibility (connected, not deafened,
not suppressed), or one visit of the periodic `checkVoiceActivity` sweep with
the guild's availability and the member's current eligibility. -/
inductive VoiceEvent
  | update (wasValid isValid : Bool) (now : ℚ)
  | sweep (guildAvailable memberValid : Bool) (now : ℚ)
deriving Repr, DecidableEq

/-- The timestamp an event carries. -/
def eventNow : VoiceEvent → ℚ
  | VoiceEvent.update _ _ n => n
  | VoiceEvent.sweep _ _ n => n

/-- One step of the VoiceManager state for a single key: the tracked start
time (none when untracked) and the voice-XP durations flushed by the step.
`handleVoiceStateUpdate` writes a start time on a transition into eligibility
only when no entry exists, and on a transition out of eligibility flushes the
elapsed time (when above the 10-second guard) and deletes the entry.
`checkVoiceActivity` visits existing entries: an unavailable guild deletes
without flushing; an ineligible member flushes (same guard) and deletes; an
eligible member whose tracked duration reached 95% of the sweep interval is
granted one interval and the start time is reset to now. (A start timestamp
of 0 ms would be falsy in the source; `Date.now()` is always positive, so the
Option model is faithful.) -/
def voiceStep (s : Option ℚ) (e : VoiceEvent) : Option ℚ × List ℚ :=
  match e with
  | VoiceEvent.update wasValid isValid now =>
    if !wasValid && isValid then
      match s with
      | none => (some now, [])
      | some j => (some j, [])
    else if wasValid && !isValid then
      match s with
      | some j => (none, if 10000 < now - j then [now - j] else [])
      | none => (none, [])
    else (s, [])
  | VoiceEvent.sweep gAvail mValid now =>
    match s with
    | none => (none, [])
    | some j =>
      if !gAvail then (none, [])
      else if !mValid then (none, if 10000 < now - j then [now - j] else [])
      else if voiceIntervalMillis * (95 / 100) ≤ now - j then (some now, [voiceIntervalMillis])
      else (some j, [])

/-- Events on which the tracker may drop a key: an exit from eligibility, or a
sweep finding the guild unavailable or the member no longer eligible. -/
def clearsEntry : VoiceEvent → Bool
  | VoiceEvent.update w v _ => w && !v
  | VoiceEvent.sweep g m _ => !g || !m

/-- C10: a transition into eligibility never overwrites an existing start time
(and writes one only when untracked); an entry is cleared only by an exit from
eligibility or an unavailable guild or a stale member; and whenever a step
flushes a grant, the entry is either cleared or its start time reset to the
event time, so the same elapsed interval is never counted twice. -/
theorem voiceStep_invariants :
    (∀ (j now : ℚ) (wasValid : Bool),
      (voiceStep (some j) (VoiceEvent.update wasValid true now)).1 = some j) ∧
      (∀ now : ℚ, (voiceStep none (VoiceEvent.update false true now)).1 = some now) ∧
      (∀ (j : ℚ) (e : VoiceEvent), (voiceStep (some j) e).1 = none → clearsEntry e = true) ∧
      (∀ (s : Option ℚ) (e : VoiceEvent), (voiceStep s e).2 ≠ [] →
        (voiceStep s e).1 = none ∨ (voiceStep s e).1 = some (eventNow e)) := by
  refine ⟨?_, ?_, ?_, ?_⟩
  · intro j now wasValid
    cases wasValid <;> simp [voiceStep]
  · intro now
    simp [voiceStep]
  · intro j e h
    cases e with
    | update w v now =>
      cases w <;> cases v <;> simp_all [voiceStep, clearsEntry]
    | sweep g m now =>
      rcases le_or_lt (voiceIntervalMillis * (95 / 100)) (now - j) with hc | hc <;>
        cases g <;> cases m <;>
        simp_all [voiceStep, clearsEntry, not_le.mpr, le_of_lt]
  · intro s e h
    cases s with
    | none =>
      cases e with
      | update w v now => cases w <;> cases v <;> simp_all [voiceStep]
      | sweep g m now => simp_all [voiceStep]
    | some j =>
      cases e with
      | update w v now =>
        cases w <;> cases v <;> simp_all [voiceStep, eventNow]
      | sweep g m now =>
        cases g <;> cases m
        · simp_all [voiceStep]
        · simp_all [voiceStep]
        · simp_all [voiceStep]
        · rcases le_or_lt (voiceIntervalMillis * (95 / 100)) (now - j) with hc | hc
          · right
            simp [voiceStep, eventNow, hc]
          · exfalso
            have hn : ¬ voiceIntervalMillis * (95 / 100) ≤ now - j := not_le.mpr hc
            simp [voiceStep, hn] at h
